import Mathlib

/-!
Verification of the `mult-session` repository core against its specification.

The development shallowly embeds the JavaScript source:

* `src/temp /sessionManager.js` — the `Semaphore` class, the `SessionManager`
  class (`start`, `startAll`, `stop`, `logout`, `isRunning`, `list`,
  `_handleConnectionUpdate`);
* `src/lib/client.js` — the `DBManager` keyed store (`get`, `set`, `getAll`,
  `delKey`, `delUser`, `_ensureUserMap`, `_applyLRUIfNeeded`,
  `_applyMaxKeysToUser`).

JavaScript numbers that the relevant code paths use as integers are modelled
as `Nat`/`Int`; JS `Map`s are modelled as insertion-ordered association
lists (a JS `Map` iterates in insertion order and `map.set` on an existing
key keeps its position, which is exactly the behaviour the LRU logic relies
on); `async` functions are modelled either as pure state transformers or,
where interleaving matters, as explicit program-counter machines whose
atomic steps are the maximal synchronous segments between `await` points of
the source.
-/

set_option maxRecDepth 4096

namespace MultSession

/-! ## Basic string helpers (JS `String.prototype.toLowerCase` / `includes`) -/

/-- Boolean test that `needle` occurs as a contiguous sublist of `hay`. -/
def hasSub (needle : List Char) : List Char → Bool
  | [] => needle.isEmpty
  | c :: t => needle.isPrefixOf (c :: t) || hasSub needle t

/-- Model of `hay.toLowerCase().includes(needle)` for JS strings.  JS
`toLowerCase` agrees with `Char.toLower` on the ASCII strings involved. -/
def ciContains (hay needle : String) : Bool :=
  hasSub (needle.data.map Char.toLower) (hay.data.map Char.toLower)

/-- Decimal digit list of a natural number, least significant digit last;
model of the digits produced by JS `String(n)` for a nonnegative integer. -/
def natToDecAux : Nat → Nat → List Char
  | 0, _ => []
  | fuel + 1, n =>
    if n < 10 then [Char.ofNat (48 + n)]
    else natToDecAux fuel (n / 10) ++ [Char.ofNat (48 + n % 10)]

def natToDecChars (n : Nat) : List Char :=
  natToDecAux (n + 1) n

/-- Model of JS `String(n)` for a nonnegative number. -/
def jsNumToString (n : Nat) : String :=
  ⟨natToDecChars n⟩

/-- Model of JS `String(n)` for an integer. -/
def jsIntToString (n : Int) : String :=
  if n < 0 then ⟨'-' :: natToDecChars n.natAbs⟩ else ⟨natToDecChars n.toNat⟩

/-! ## C1 — permanent/transient classification of a connection close

`sessionManager.js`, `_handleConnectionUpdate`, lines 207–231.  The close
reason carries an optional numeric `statusCode`
(`lastDisconnect?.error?.output?.statusCode`) and an optional string
`payloadReason` (`lastDisconnect?.error?.output?.payload?.reason`); an
absent field is JS `undefined`, modelled by `none`. -/

/-- Model of line 211, `reason = statusCode || payloadReason || null`,
followed by the coercion `String(reason)` of line 218: a truthy (nonzero)
status code stringifies to its decimal digits; otherwise a truthy
(nonempty) payload reason is used; otherwise the result is the string
`String(null) = "null"`. -/
def jsReasonString (statusCode : Option Nat) (payloadReason : Option String) : String :=
  let payloadOrNull : String :=
    match payloadReason with
    | some s => if s = "" then "null" else s
    | none => "null"
  match statusCode with
  | some n => if n ≠ 0 then jsNumToString n else payloadOrNull
  | none => payloadOrNull

/-- Model of `String(payloadReason)` (line 218): JS stringifies the
`undefined` of an absent field to `"undefined"`. -/
def jsPayloadString (payloadReason : Option String) : String :=
  match payloadReason with
  | some s => s
  | none => "undefined"

/-- The `isLoggedOut` predicate of `sessionManager.js` line 218, verbatim:

`statusCode === 401 || payloadReason === 'loggedOut' || payloadReason === 'logout'
 || String(reason).toLowerCase().includes('loggedout')
 || String(payloadReason).toLowerCase().includes('loggedout')
 || String(payloadReason).toLowerCase().includes('forbidden')`.

The close is classified permanent exactly when this returns `true`
(lines 220–231); otherwise it is transient (lines 233–251). -/
def isLoggedOut (statusCode : Option Nat) (payloadReason : Option String) : Bool :=
  (statusCode == some 401)
    || (payloadReason == some "loggedOut")
    || (payloadReason == some "logout")
    || ciContains (jsReasonString statusCode payloadReason) "loggedout"
    || ciContains (jsPayloadString payloadReason) "loggedout"
    || ciContains (jsPayloadString payloadReason) "forbidden"

/-- The classification as the spec's words state it (claim C1): permanent
iff status code 401 or the payload reason contains, as a case-insensitive
substring, any of `"loggedout"`, `"logout"`, `"forbidden"`. -/
def specPermanentC1 (statusCode : Option Nat) (payloadReason : Option String) : Bool :=
  (statusCode == some 401)
    || (match payloadReason with
        | some s => ciContains s "loggedout" || ciContains s "logout" || ciContains s "forbidden"
        | none => false)

/-! ### C1 support lemmas -/

theorem toNat_ofNat_lt {n : Nat} (h : n < 55296) : (Char.ofNat n).toNat = n := by
  have hv : n.isValidChar := Or.inl h
  simp [Char.ofNat, hv, Char.ofNatAux, Char.toNat, UInt32.toNat, BitVec.toNat_ofNat]

theorem natToDecAux_digit (fuel : Nat) :
    ∀ n, ∀ c ∈ natToDecAux fuel n, 48 ≤ c.toNat ∧ c.toNat ≤ 57 := by
  induction fuel with
  | zero => intro n c hc; simp [natToDecAux] at hc
  | succ fuel ih =>
    intro n
    rw [natToDecAux]
    split
    · next h =>
      intro c hc
      simp only [List.mem_singleton] at hc
      subst hc
      rw [toNat_ofNat_lt (by omega)]
      omega
    · intro c hc
      rw [List.mem_append] at hc
      rcases hc with hc | hc
      · exact ih (n / 10) c hc
      · simp only [List.mem_singleton] at hc
        subst hc
        have h10 : n % 10 < 10 := Nat.mod_lt _ (by omega)
        rw [toNat_ofNat_lt (by omega)]
        omega

theorem natToDecChars_digit (n : Nat) : ∀ c ∈ natToDecChars n, 48 ≤ c.toNat ∧ c.toNat ≤ 57 :=
  natToDecAux_digit (n + 1) n

theorem digit_toLower {c : Char} (h : c.toNat ≤ 57) : c.toLower = c := by
  rw [Char.toLower, if_neg]
  omega

theorem hasSub_ell_false {ts hay : List Char} (hhay : ∀ c ∈ hay, c ≠ 'l') :
    hasSub ('l' :: ts) hay = false := by
  induction hay with
  | nil => rfl
  | cons c t ih =>
    rw [hasSub]
    have hc : c ≠ 'l' := hhay c (List.mem_cons_self _ _)
    have h1 : ('l' :: ts).isPrefixOf (c :: t) = false := by
      simp [List.isPrefixOf]
      intro h
      exact absurd h.symm hc
    rw [h1]
    simp only [Bool.false_or]
    exact ih (fun c hc' => hhay c (List.mem_cons_of_mem _ hc'))

/-- A decimal digit string never contains `"loggedout"` as a substring. -/
theorem ciContains_num_loggedout (n : Nat) :
    ciContains (jsNumToString n) "loggedout" = false := by
  rw [ciContains]
  have hne : "loggedout".data.map Char.toLower = 'l' :: "oggedout".data := by decide
  rw [hne]
  apply hasSub_ell_false
  intro c hc
  rw [List.mem_map] at hc
  obtain ⟨d, hd, rfl⟩ := hc
  have hdig := natToDecChars_digit n d hd
  rw [digit_toLower hdig.2]
  intro h
  subst h
  exact absurd hdig.2 (by decide)

/-! ### C1 theorems -/

/-- C1, counterexample: a close with no status code and payload reason
`"Logout"` contains `"logout"` as a case-insensitive substring, so the claim
classifies it permanent, yet the code classifies it transient: line 218 only
substring-matches `"loggedout"` and `"forbidden"` case-insensitively, while
`"logout"` is matched by the case-sensitive exact comparison
`payloadReason === 'logout'` only. -/
theorem classification_logout_substring_cex :
    isLoggedOut none (some "Logout") = false ∧ specPermanentC1 none (some "Logout") = true :=
  ⟨by decide, by decide⟩

/-- C1, amended: a connection close is classified permanent iff the status
code is `401`, or the payload reason is exactly `"loggedOut"` or exactly
`"logout"`, or the payload reason contains `"loggedout"` or `"forbidden"`
as a case-insensitive substring.  (Case-insensitive substring matching is
not performed against `"logout"`; status code `401` is permanent regardless
of payload; `"forbidden"` substrings in the payload are permanent.) -/
theorem classification_permanent_characterization (sc : Option Nat) (pr : Option String) :
    isLoggedOut sc pr =
      ((sc == some 401) || (pr == some "loggedOut") || (pr == some "logout")
        || (match pr with
            | some s => ciContains s "loggedout" || ciContains s "forbidden"
            | none => false)) := by
  rw [isLoggedOut]
  match sc, pr with
  | some n, pr =>
    by_cases hn : n = 0
    · subst hn
      match pr with
      | none => decide
      | some s =>
        simp only [jsReasonString, jsPayloadString]
        by_cases hs : s = ""
        · subst hs; decide
        · simp only [if_neg hs]
          cases h1 : ciContains s "loggedout" <;> cases h2 : ciContains s "forbidden" <;>
            simp [h1, h2]
    · have hnum : jsReasonString (some n) pr = jsNumToString n := by
        simp [jsReasonString, hn]
      rw [hnum, ciContains_num_loggedout]
      match pr with
      | none =>
        simp only [jsPayloadString]
        have e1 : ciContains "undefined" "loggedout" = false := by decide
        have e2 : ciContains "undefined" "forbidden" = false := by decide
        simp [e1, e2]
      | some s =>
        simp only [jsPayloadString]
        cases h1 : ciContains s "loggedout" <;> cases h2 : ciContains s "forbidden" <;>
          simp [h1, h2]
  | none, pr =>
    match pr with
    | none => decide
    | some s =>
      simp only [jsReasonString, jsPayloadString]
      by_cases hs : s = ""
      · subst hs; decide
      · simp only [if_neg hs]
        cases h1 : ciContains s "loggedout" <;> cases h2 : ciContains s "forbidden" <;>
          simp [h1, h2]

/-! ## The Keyed Store: `DBManager` of `src/lib/client.js` (C7, C8, C10)

The store is `Map<userId, Map<key, valueObject>>` (line 273).  JS `Map`s
iterate in insertion order; `map.set` on a present key updates in place and
keeps its position; `map.delete` removes the single entry with that key.
They are modelled as association lists with exactly those operations
(`lookupA`, `setA`, `delA`).  Arbitrary JSON-serializable stored values are
modelled by `JsVal`; owner ids reaching the API are strings or numbers,
modelled by `JsKey`. -/

inductive JsVal where
  | null : JsVal
  | bool (b : Bool) : JsVal
  | num (n : Int) : JsVal
  | str (s : String) : JsVal
  | arr (elems : List JsVal) : JsVal
  | obj (fields : List (String × JsVal)) : JsVal

inductive JsKey where
  | str (s : String) : JsKey
  | num (n : Int) : JsKey
deriving DecidableEq

def JsVal.truthy : JsVal → Bool
  | .null => false
  | .bool b => b
  | .num n => n != 0
  | .str s => s != ""
  | .arr _ => true
  | .obj _ => true

section AssocOps
variable {α : Type} {β : Type} [DecidableEq α]

def lookupA : List (α × β) → α → Option β
  | [], _ => none
  | (k', v) :: rest, k => if k' = k then some v else lookupA rest k

def setA : List (α × β) → α → β → List (α × β)
  | [], k, v => [(k, v)]
  | (k', v') :: rest, k, v => if k' = k then (k', v) :: rest else (k', v') :: setA rest k v

def delA : List (α × β) → α → List (α × β)
  | [], _ => []
  | (k', v') :: rest, k => if k' = k then rest else (k', v') :: delA rest k

theorem lookupA_setA (l : List (α × β)) (k : α) (v : β) : lookupA (setA l k v) k = some v := by
  induction l with
  | nil => simp [setA, lookupA]
  | cons p rest ih =>
    obtain ⟨k', v'⟩ := p
    by_cases h : k' = k <;> simp [setA, lookupA, h, ih]

theorem lookupA_eq_none (l : List (α × β)) (k : α) :
    lookupA l k = none ↔ k ∉ l.map Prod.fst := by
  induction l with
  | nil => simp [lookupA]
  | cons p rest ih =>
    obtain ⟨k', v'⟩ := p
    by_cases h : k' = k
    · subst h
      simp [lookupA]
    · rw [lookupA, if_neg h, ih]
      simp only [List.map_cons, List.mem_cons, not_or]
      have hne : ¬ k = k' := fun he => h he.symm
      tauto

theorem lookupA_mem {l : List (α × β)} {k : α} {v : β} (h : lookupA l k = some v) :
    (k, v) ∈ l := by
  induction l with
  | nil => simp [lookupA] at h
  | cons p rest ih =>
    obtain ⟨k', v'⟩ := p
    by_cases hk : k' = k
    · subst hk
      simp [lookupA] at h
      subst h
      exact List.mem_cons_self _ _
    · simp [lookupA, hk] at h
      exact List.mem_cons_of_mem _ (ih h)

theorem lookupA_append_left_none {l₁ : List (α × β)} (l₂ : List (α × β)) {k : α}
    (h : k ∉ l₁.map Prod.fst) : lookupA (l₁ ++ l₂) k = lookupA l₂ k := by
  induction l₁ with
  | nil => simp
  | cons p rest ih =>
    obtain ⟨k', v'⟩ := p
    simp only [List.map_cons, List.mem_cons] at h
    push_neg at h
    simp [lookupA, Ne.symm h.1, ih h.2]

theorem setA_of_notMem {l : List (α × β)} {k : α} (v : β) (h : k ∉ l.map Prod.fst) :
    setA l k v = l ++ [(k, v)] := by
  induction l with
  | nil => rfl
  | cons p rest ih =>
    obtain ⟨k', v'⟩ := p
    simp only [List.map_cons, List.mem_cons] at h
    push_neg at h
    simp [setA, Ne.symm h.1, ih h.2]

theorem fst_delA (l : List (α × β)) (k : α) :
    (delA l k).map Prod.fst = (l.map Prod.fst).erase k := by
  induction l with
  | nil => rfl
  | cons p rest ih =>
    obtain ⟨k', v'⟩ := p
    by_cases h : k' = k
    · subst h
      simp [delA, List.erase_cons]
    · simp [delA, h, List.erase_cons, ih]

theorem fst_setA_mem {l : List (α × β)} {k : α} (v : β) (h : k ∈ l.map Prod.fst) :
    (setA l k v).map Prod.fst = l.map Prod.fst := by
  induction l with
  | nil => simp at h
  | cons p rest ih =>
    obtain ⟨k', v'⟩ := p
    by_cases hk : k' = k
    · simp [setA, hk]
    · simp only [List.map_cons, List.mem_cons] at h
      rcases h with h | h
      · exact absurd h.symm hk
      · simp [setA, hk, ih h]

theorem length_setA_mem {l : List (α × β)} {k : α} (v : β) (h : k ∈ l.map Prod.fst) :
    (setA l k v).length = l.length := by
  have := fst_setA_mem (l := l) (k := k) v h
  have h1 : (setA l k v).length = ((setA l k v).map Prod.fst).length := (List.length_map _ _).symm
  rw [h1, this, List.length_map]

end AssocOps

def lruEvict {γ : Type} (maxN : Nat) : List γ → List γ
  | [] => []
  | x :: t => if (x :: t).length > maxN then lruEvict maxN t else x :: t

theorem lruEvict_eq_drop {γ : Type} (maxN : Nat) (l : List γ) :
    lruEvict maxN l = l.drop (l.length - maxN) := by
  induction l with
  | nil => simp [lruEvict]
  | cons x t ih =>
    rw [lruEvict]
    by_cases h : (x :: t).length > maxN
    · rw [if_pos h, ih]
      simp only [List.length_cons] at h ⊢
      have h1 : t.length + 1 - maxN = (t.length - maxN) + 1 := by omega
      rw [h1, List.drop_succ_cons]
    · rw [if_neg h]
      simp only [List.length_cons] at h ⊢
      have h1 : t.length + 1 - maxN = 0 := by omega
      rw [h1, List.drop_zero]

theorem lruEvict_of_le {γ : Type} {maxN : Nat} {l : List γ} (h : l.length ≤ maxN) :
    lruEvict maxN l = l := by
  rw [lruEvict_eq_drop]
  have : l.length - maxN = 0 := by omega
  rw [this, List.drop_zero]

theorem length_lruEvict {γ : Type} (maxN : Nat) (l : List γ) :
    (lruEvict maxN l).length = min l.length maxN := by
  rw [lruEvict_eq_drop, List.length_drop]
  omega



abbrev UserMap := List (String × JsVal)

structure DB where
  maxUsers : Nat
  maxKeysPerUser : Nat
  returnDirectRef : Bool
  store : List (JsKey × UserMap)

def deepClone (v : JsVal) : JsVal := v

def coerceOwner : JsKey → JsKey
  | .num n => .str (jsIntToString n)
  | .str s => .str s

def dbTouch (db : DB) (userId : JsKey) (m : UserMap) : DB :=
  if db.maxUsers ≠ 0 then { db with store := delA db.store userId ++ [(userId, m)] } else db

def dbGet (db : DB) (userId : JsKey) (key : String) : Option JsVal × DB :=
  match lookupA db.store userId with
  | none => (none, db)
  | some m =>
    match lookupA m key with
    | none => (none, dbTouch db userId m)
    | some v =>
      if v.truthy then (some (if db.returnDirectRef then v else deepClone v), dbTouch db userId m)
      else (none, dbTouch db userId m)

def dbGetAll (db : DB) (userId : JsKey) : Option UserMap × DB :=
  match lookupA db.store userId with
  | none => (none, db)
  | some m => (some m, dbTouch db userId m)

def applyMaxKeys (maxK : Nat) (m : UserMap) : UserMap :=
  if maxK ≠ 0 then lruEvict maxK m else m

def dbEnsureUser (db : DB) (uid : JsKey) : List (JsKey × UserMap) :=
  match lookupA db.store uid with
  | none =>
    if db.maxUsers ≠ 0 then lruEvict db.maxUsers (db.store ++ [(uid, [])])
    else db.store ++ [(uid, [])]
  | some m =>
    if db.maxUsers ≠ 0 then delA db.store uid ++ [(uid, m)] else db.store

def dbSetInner (db : DB) (st1 : List (JsKey × UserMap)) (uid : JsKey) (key : String) (v : JsVal) : DB :=
  match lookupA st1 uid with
  | none => { db with store := st1 }
  | some m => { db with store := setA st1 uid (applyMaxKeys db.maxKeysPerUser (setA m key v)) }

def dbSet (db : DB) (userId : JsKey) (key : String) (v : JsVal) : DB :=
  dbSetInner db (dbEnsureUser db (coerceOwner userId)) (coerceOwner userId) key v

def dbDelKey (db : DB) (userId : JsKey) (key : String) : Bool × DB :=
  match lookupA db.store userId with
  | none => (false, db)
  | some m =>
    let existed := (lookupA m key).isSome
    let m' := delA m key
    let db' :=
      if m'.length = 0 then { db with store := delA db.store userId }
      else { db with store := setA db.store userId m' }
    (existed, db')

def dbDelUser (db : DB) (userId : JsKey) : Bool × DB :=
  match lookupA db.store userId with
  | none => (false, db)
  | some _ => (true, { db with store := delA db.store userId })

def owners (db : DB) : List JsKey := db.store.map Prod.fst

theorem keysSub_drop (m : List (String × JsVal)) (j : Nat) {key : String}
    (h : key ∉ m.map Prod.fst) : key ∉ (m.drop j).map Prod.fst := by
  intro hc
  exact h (List.map_subset _ (List.drop_subset j m) hc)

theorem keysSub_dropK (l : List (JsKey × UserMap)) (j : Nat) {k : JsKey}
    (h : k ∉ l.map Prod.fst) : k ∉ (l.drop j).map Prod.fst := by
  intro hc
  exact h (List.map_subset _ (List.drop_subset j l) hc)

theorem lookupA_applyMaxKeys {m : UserMap} {key : String} (v : JsVal) (maxK : Nat)
    (hlen : maxK ≠ 0 → m.length ≤ maxK) :
    lookupA (applyMaxKeys maxK (setA m key v)) key = some v := by
  rw [applyMaxKeys]
  by_cases hm : maxK ≠ 0
  · rw [if_pos hm]
    by_cases hk : key ∈ m.map Prod.fst
    · have hl : (setA m key v).length = m.length := length_setA_mem v hk
      rw [lruEvict_of_le (by rw [hl]; exact hlen hm)]
      exact lookupA_setA m key v
    · rw [setA_of_notMem v hk, lruEvict_eq_drop]
      have hlen2 : (m ++ [(key, v)]).length - maxK ≤ m.length := by
        simp only [List.length_append, List.length_cons, List.length_nil]
        omega
      rw [List.drop_append_of_le_length hlen2]
      rw [lookupA_append_left_none _ (keysSub_drop m _ hk)]
      simp [lookupA]
  · rw [if_neg hm]
    exact lookupA_setA m key v

theorem dbSetInner_get {db : DB} {st1 : List (JsKey × UserMap)} {uid : JsKey}
    {key : String} {v : JsVal} {m : UserMap}
    (hm : lookupA st1 uid = some m)
    (hmb : db.maxKeysPerUser ≠ 0 → m.length ≤ db.maxKeysPerUser) :
    (dbGet (dbSetInner db st1 uid key v) uid key).1 =
      (if v.truthy = true then some v else none) := by
  rw [dbSetInner, hm]
  rw [dbGet]
  simp only
  rw [lookupA_setA]
  simp only
  rw [lookupA_applyMaxKeys v _ hmb]
  cases ht : v.truthy
  · simp [ht]
  · simp only [ht, if_pos]
    by_cases hd : db.returnDirectRef <;> simp [hd, deepClone]

theorem dbEnsureUser_lookup {db : DB} {uid : JsKey}
    (hnd : (db.store.map Prod.fst).Nodup) :
    lookupA (dbEnsureUser db uid) uid =
      some ((lookupA db.store uid).getD []) := by
  rw [dbEnsureUser]
  split
  · next h =>
    have hnm : uid ∉ db.store.map Prod.fst := (lookupA_eq_none _ _).mp h
    rw [h]
    by_cases hmu : db.maxUsers ≠ 0
    · rw [if_pos hmu, lruEvict_eq_drop]
      have hj : (db.store ++ [(uid, ([] : UserMap))]).length - db.maxUsers ≤ db.store.length := by
        simp only [List.length_append, List.length_cons, List.length_nil]
        omega
      rw [List.drop_append_of_le_length hj]
      rw [lookupA_append_left_none _ (keysSub_dropK db.store _ hnm)]
      simp [lookupA]
    · rw [if_neg hmu]
      rw [lookupA_append_left_none _ hnm]
      simp [lookupA]
  · next m h =>
    rw [h]
    by_cases hmu : db.maxUsers ≠ 0
    · rw [if_pos hmu]
      have hnm : uid ∉ (delA db.store uid).map Prod.fst := by
        rw [fst_delA]
        exact hnd.not_mem_erase
      rw [lookupA_append_left_none _ hnm]
      simp [lookupA]
    · rw [if_neg hmu, h]
      rfl

/-- Core helper for C7 and C10: after `set` with a string owner id, under
the well-formedness the store maintains (unique owner keys, inner maps
within the per-user bound), `get` on the same owner and key finds the
stored value, provided the value is truthy. -/
theorem dbGet_after_dbSet (db : DB) (s key : String) (v : JsVal)
    (hnd : (db.store.map Prod.fst).Nodup)
    (hib : db.maxKeysPerUser ≠ 0 → ∀ p ∈ db.store, p.2.length ≤ db.maxKeysPerUser) :
    (dbGet (dbSet db (.str s) key v) (.str s) key).1 =
      (if v.truthy = true then some v else none) := by
  rw [dbSet]
  have hco : coerceOwner (.str s) = JsKey.str s := rfl
  rw [hco]
  apply dbSetInner_get (dbEnsureUser_lookup hnd)
  intro hk
  cases h : lookupA db.store (JsKey.str s) with
  | none => simp [h]
  | some m =>
    simp only [Option.getD_some]
    exact hib hk _ (lookupA_mem h)



theorem lookupA_isSome_mem {α β : Type} [DecidableEq α] {l : List (α × β)} {k : α} {v : β}
    (h : lookupA l k = some v) : k ∈ l.map Prod.fst := by
  have := lookupA_mem h
  exact List.mem_map.mpr ⟨(k, v), this, rfl⟩

theorem length_delA_mem {α β : Type} [DecidableEq α] {l : List (α × β)} {k : α}
    (h : k ∈ l.map Prod.fst) : (delA l k).length + 1 = l.length := by
  induction l with
  | nil => simp at h
  | cons p rest ih =>
    obtain ⟨k', v'⟩ := p
    by_cases hk : k' = k
    · simp [delA, hk]
    · simp only [List.map_cons, List.mem_cons] at h
      rcases h with h | h
      · exact absurd h.symm hk
      · simp [delA, hk, ih h]

theorem mem_setA {α β : Type} [DecidableEq α] {l : List (α × β)} {k : α} {v : β} {p : α × β}
    (hp : p ∈ setA l k v) : p ∈ l ∨ p = (k, v) ∨ p.1 = k := by
  induction l with
  | nil =>
    simp [setA] at hp
    subst hp
    exact Or.inr (Or.inl rfl)
  | cons q rest ih =>
    obtain ⟨k', v'⟩ := q
    by_cases hk : k' = k
    · subst hk
      rw [setA, if_pos rfl] at hp
      rcases List.mem_cons.mp hp with hp1 | hp1
      · subst hp1; exact Or.inr (Or.inr rfl)
      · exact Or.inl (List.mem_cons_of_mem _ hp1)
    · rw [setA, if_neg hk] at hp
      rcases List.mem_cons.mp hp with hp1 | hp1
      · subst hp1; exact Or.inl (List.mem_cons_self _ _)
      · rcases ih hp1 with h | h
        · exact Or.inl (List.mem_cons_of_mem _ h)
        · exact Or.inr h

theorem mem_delA_sub {α β : Type} [DecidableEq α] {l : List (α × β)} {k : α} {p : α × β}
    (hp : p ∈ delA l k) : p ∈ l := by
  induction l with
  | nil => simp [delA] at hp
  | cons q rest ih =>
    obtain ⟨k', v'⟩ := q
    by_cases hk : k' = k
    · simp only [delA, if_pos hk] at hp
      exact List.mem_cons_of_mem _ hp
    · simp only [delA, if_neg hk, List.mem_cons] at hp
      rcases hp with hp | hp
      · subst hp; exact List.mem_cons_self _ _
      · exact List.mem_cons_of_mem _ (ih hp)

theorem mem_lruEvict_sub {γ : Type} {maxN : Nat} {l : List γ} {x : γ}
    (hx : x ∈ lruEvict maxN l) : x ∈ l := by
  rw [lruEvict_eq_drop] at hx
  exact List.drop_subset _ _ hx

theorem coerceOwner_str (k : JsKey) : ∃ s, coerceOwner k = JsKey.str s := by
  cases k with
  | str s => exact ⟨s, rfl⟩
  | num n => exact ⟨jsIntToString n, rfl⟩

theorem mem_dbEnsureUser {db : DB} {uid : JsKey} {p : JsKey × UserMap}
    (hp : p ∈ dbEnsureUser db uid) : p ∈ db.store ∨ p.1 = uid := by
  rw [dbEnsureUser] at hp
  revert hp
  split
  · intro hp
    by_cases hmu : db.maxUsers ≠ 0
    · rw [if_pos hmu] at hp
      have := mem_lruEvict_sub hp
      rcases List.mem_append.mp this with h | h
      · exact Or.inl h
      · simp at h; subst h; exact Or.inr rfl
    · rw [if_neg hmu] at hp
      rcases List.mem_append.mp hp with h | h
      · exact Or.inl h
      · simp at h; subst h; exact Or.inr rfl
  · next m hm =>
    intro hp
    by_cases hmu : db.maxUsers ≠ 0
    · rw [if_pos hmu] at hp
      rcases List.mem_append.mp hp with h | h
      · exact Or.inl (mem_delA_sub h)
      · simp at h; subst h; exact Or.inr rfl
    · rw [if_neg hmu] at hp
      exact Or.inl hp

theorem mem_dbSet_store {db : DB} {userId : JsKey} {key : String} {v : JsVal}
    {p : JsKey × UserMap} (hp : p ∈ (dbSet db userId key v).store) :
    p ∈ db.store ∨ p.1 = coerceOwner userId := by
  rw [dbSet, dbSetInner] at hp
  revert hp
  split
  · intro hp
    exact mem_dbEnsureUser hp
  · next m hm =>
    intro hp
    rcases mem_setA hp with h | h | h
    · exact mem_dbEnsureUser h
    · subst h; exact Or.inr rfl
    · exact Or.inr h



def dbDefault : DB := { maxUsers := 0, maxKeysPerUser := 0, returnDirectRef := true, store := [] }

def dbLru2 : DB :=
  { maxUsers := 2, maxKeysPerUser := 0, returnDirectRef := true,
    store := [(.str "a", [("k", .num 1)]), (.str "b", [("k", .num 2)])] }

theorem dbGet_snd {db : DB} {uid : JsKey} {key : String} {m : UserMap}
    (hm : lookupA db.store uid = some m) :
    (dbGet db uid key).2 = dbTouch db uid m := by
  rw [dbGet]
  split
  · next h => rw [h] at hm; exact Option.noConfusion hm
  · next m' hm' =>
    rw [hm'] at hm
    injection hm with hm
    subst hm
    split
    · rfl
    · split <;> rfl

theorem dbGetAll_snd {db : DB} {uid : JsKey} {m : UserMap}
    (hm : lookupA db.store uid = some m) :
    (dbGetAll db uid).2 = dbTouch db uid m := by
  rw [dbGetAll]
  split
  · next h => rw [h] at hm; exact Option.noConfusion hm
  · next m' hm' =>
    rw [hm'] at hm
    injection hm with hm
    subst hm
    rfl

theorem owners_dbTouch {db : DB} {uid : JsKey} (m : UserMap) (hmu : db.maxUsers ≠ 0) :
    owners (dbTouch db uid m) = (owners db).erase uid ++ [uid] := by
  rw [dbTouch, if_pos hmu]
  simp only [owners, List.map_append, fst_delA]
  rfl

theorem dbEnsureUser_some {db : DB} {uid : JsKey} {m : UserMap}
    (hm : lookupA db.store uid = some m) (hmu : db.maxUsers ≠ 0) :
    dbEnsureUser db uid = delA db.store uid ++ [(uid, m)] := by
  rw [dbEnsureUser]
  split
  · next h => rw [h] at hm; exact Option.noConfusion hm
  · next m' hm' =>
    rw [hm'] at hm
    injection hm with hm
    subst hm
    rw [if_pos hmu]

theorem dbSetInner_length (db : DB) (st1 : List (JsKey × UserMap)) (uid : JsKey)
    (key : String) (v : JsVal) :
    (dbSetInner db st1 uid key v).store.length = st1.length := by
  rw [dbSetInner]
  split
  · rfl
  · next m hm =>
    simp only
    exact length_setA_mem _ (lookupA_isSome_mem hm)

theorem dbEnsureUser_length_le {db : DB} {uid : JsKey} (hmu : db.maxUsers ≠ 0)
    (hb : db.store.length ≤ db.maxUsers) :
    (dbEnsureUser db uid).length ≤ db.maxUsers := by
  rw [dbEnsureUser]
  split
  · rw [if_pos hmu, length_lruEvict]
    exact Nat.min_le_right _ _
  · next m hm =>
    rw [if_pos hmu]
    have := length_delA_mem (lookupA_isSome_mem hm)
    simp only [List.length_append, List.length_cons, List.length_nil]
    omega



/-- C7, counterexample: with the default configuration, after
`set("u1", "k", false)` the call `get("u1", "k")` returns `null` (absent),
not a value deep-equal to the stored `false`: `get` ends with
`if (!val) return null`, so every falsy stored value (`false`, `0`, `""`,
`null`) reads back as absent. -/
theorem keyed_store_falsy_value_cex :
    ((dbGet (dbSet dbDefault (.str "u1") "k" (.bool false)) (.str "u1") "k").1 = none) ∧
    ((dbGet (dbSet dbDefault (.str "u1") "k" (.bool false)) (.str "u1") "k").1 ≠
      some (JsVal.bool false)) := by
  have h : (dbGet (dbSet dbDefault (.str "u1") "k" (.bool false)) (.str "u1") "k").1 = none := rfl
  refine ⟨h, ?_⟩
  rw [h]
  intro hc
  exact Option.noConfusion hc

/-- C7, amended: for every string owner id, key, and stored value `V`,
immediately after `set(owner, key, V)` a call to `get(owner, key)` returns
the stored value itself (hence deep-equal to `V`) when `V` is truthy, and
returns `null`/absent when `V` is falsy.  Well-formedness hypotheses: the
owner keys are unique (as in a JS `Map`) and each owner map respects the
configured `maxKeysPerUser` bound, both invariants the store maintains. -/
theorem keyed_store_set_then_get (db : DB) (s key : String) (v : JsVal)
    (hnd : (db.store.map Prod.fst).Nodup)
    (hib : db.maxKeysPerUser ≠ 0 → ∀ p ∈ db.store, p.2.length ≤ db.maxKeysPerUser) :
    (dbGet (dbSet db (.str s) key v) (.str s) key).1 =
      (if v.truthy = true then some v else none) :=
  dbGet_after_dbSet db s key v hnd hib

/-- Witness for C7 at a concrete input: an empty default store,
owner `"u1"`, key `"k"`, value `5`. -/
theorem keyed_store_set_then_get_witness :
    (dbGet (dbSet dbDefault (.str "u1") "k" (.num 5)) (.str "u1") "k").1 = some (.num 5) := by
  have h := keyed_store_set_then_get dbDefault "u1" "k" (.num 5) (by decide) (by decide)
  rw [h]
  rfl

/-- C10, counterexample: after `set(1, "k", false)` (numeric owner `1`,
falsy value), `get(1, "k")` is `null` as the claim states, but
`get("1", "k")` is also `null` rather than the stored `false`, because
`get` coalesces falsy values to `null`.  The claim quantifies over every
value `v`, so it fails at `v = false`. -/
theorem numeric_owner_falsy_cex :
    ((dbGet (dbSet dbDefault (.num 1) "k" (.bool false)) (.num 1) "k").1 = none) ∧
    ((dbGet (dbSet dbDefault (.num 1) "k" (.bool false)) (.str "1") "k").1 = none) ∧
    ((dbGet (dbSet dbDefault (.num 1) "k" (.bool false)) (.str "1") "k").1 ≠
      some (JsVal.bool false)) := by
  have h : (dbGet (dbSet dbDefault (.num 1) "k" (.bool false)) (.str "1") "k").1 = none := rfl
  refine ⟨rfl, h, ?_⟩
  rw [h]
  intro hc
  exact Option.noConfusion hc

/-- C10, amended: `set` coerces a numeric owner id `n` to `String(n)`
before storing while `get` does not coerce, so on a store whose owner keys
are all strings (which is every store `set` can build), after
`set(n, key, v)`: `get(n, key)` returns `null`, and
`get(String(n), key)` returns the stored `v` when `v` is truthy (and
`null` when `v` is falsy, by C7's falsy-coalescing). -/
theorem numeric_owner_coercion (db : DB) (n : Int) (key : String) (v : JsVal)
    (hstr : ∀ p ∈ db.store, ∃ s, p.1 = JsKey.str s)
    (hnd : (db.store.map Prod.fst).Nodup)
    (hib : db.maxKeysPerUser ≠ 0 → ∀ p ∈ db.store, p.2.length ≤ db.maxKeysPerUser) :
    ((dbGet (dbSet db (.num n) key v) (.num n) key).1 = none) ∧
    ((dbGet (dbSet db (.num n) key v) (.str (jsIntToString n)) key).1 =
      (if v.truthy = true then some v else none)) := by
  constructor
  · have hnotin : JsKey.num n ∉ (dbSet db (.num n) key v).store.map Prod.fst := by
      intro hmem
      rcases List.mem_map.mp hmem with ⟨p, hp, hfst⟩
      rcases mem_dbSet_store hp with h | h
      · rcases hstr p h with ⟨s, hs⟩
        rw [hs] at hfst
        exact JsKey.noConfusion hfst
      · rw [show coerceOwner (.num n) = JsKey.str (jsIntToString n) from rfl] at h
        rw [h] at hfst
        exact JsKey.noConfusion hfst
    rw [dbGet, (lookupA_eq_none _ _).mpr hnotin]
  · have heq : dbSet db (JsKey.num n) key v = dbSet db (.str (jsIntToString n)) key v := rfl
    rw [heq]
    exact dbGet_after_dbSet db (jsIntToString n) key v hnd hib

/-- Witness for C10 at a concrete input: empty default store, numeric
owner `7`, key `"k"`, truthy value `5`. -/
theorem numeric_owner_coercion_witness :
    ((dbGet (dbSet dbDefault (.num 7) "k" (.num 5)) (.num 7) "k").1 = none) ∧
    ((dbGet (dbSet dbDefault (.num 7) "k" (.num 5)) (.str (jsIntToString 7)) "k").1 =
      some (.num 5)) := by
  have h := numeric_owner_coercion dbDefault 7 "k" (.num 5)
    (fun p hp => absurd hp (List.not_mem_nil p)) (by decide) (by decide)
  refine ⟨h.1, ?_⟩
  rw [h.2]
  rfl

/-- C8: owner-LRU with touch.  Conjuncts: (1) the spec scenario — with
`maxOwners = 2` and owners `a`, `b` present, `get(a, "k")` followed by
inserting a key for new owner `c` leaves exactly owners `[a, c]` (so `b`
was evicted and `a` kept); (2)–(4) every `get`, `getAll`, or `set` that
touches an existing owner moves that owner to the most-recent (last)
position, leaving the others in order; (5) `set` keeps the owner count
within `maxOwners` whenever it was within the bound before; (6) eviction
always removes the structurally-first (oldest) owners: `lruEvict` is
exactly `drop` of a front segment. -/
theorem owner_lru_touch :
    (owners (dbSet (dbGet dbLru2 (.str "a") "k").2 (.str "c") "k2" (.num 3)) =
      [.str "a", .str "c"]) ∧
    (∀ (db : DB) (uid : JsKey) (key : String) (m : UserMap), db.maxUsers ≠ 0 →
      lookupA db.store uid = some m →
      owners (dbGet db uid key).2 = (owners db).erase uid ++ [uid]) ∧
    (∀ (db : DB) (uid : JsKey) (m : UserMap), db.maxUsers ≠ 0 →
      lookupA db.store uid = some m →
      owners (dbGetAll db uid).2 = (owners db).erase uid ++ [uid]) ∧
    (∀ (db : DB) (s key : String) (v : JsVal) (m : UserMap), db.maxUsers ≠ 0 →
      (db.store.map Prod.fst).Nodup →
      lookupA db.store (JsKey.str s) = some m →
      owners (dbSet db (.str s) key v) = (owners db).erase (.str s) ++ [.str s]) ∧
    (∀ (db : DB) (userId : JsKey) (key : String) (v : JsVal), db.maxUsers ≠ 0 →
      db.store.length ≤ db.maxUsers →
      (dbSet db userId key v).store.length ≤ db.maxUsers) ∧
    (∀ (maxN : Nat) (l : List (JsKey × UserMap)), lruEvict maxN l = l.drop (l.length - maxN)) := by
  refine ⟨by decide, ?_, ?_, ?_, ?_, fun maxN l => lruEvict_eq_drop maxN l⟩
  · intro db uid key m hmu hm
    rw [dbGet_snd hm, owners_dbTouch m hmu]
  · intro db uid m hmu hm
    rw [dbGetAll_snd hm, owners_dbTouch m hmu]
  · intro db s key v m hmu hnd hm
    rw [dbSet]
    have hco : coerceOwner (.str s) = JsKey.str s := rfl
    rw [hco]
    have hlk : lookupA (dbEnsureUser db (JsKey.str s)) (JsKey.str s) = some m := by
      rw [dbEnsureUser_lookup hnd, hm]
      rfl
    rw [dbSetInner]
    split
    · next h => rw [hlk] at h; exact Option.noConfusion h
    · next m' hm' =>
      simp only [owners]
      rw [fst_setA_mem _ (lookupA_isSome_mem hm'), dbEnsureUser_some hm hmu]
      simp only [List.map_append, fst_delA]
      rfl
  · intro db userId key v hmu hb
    rw [dbSet, dbSetInner_length]
    exact dbEnsureUser_length_le hmu hb

/-- Witness for C8: each quantified conjunct instantiated on the concrete
two-owner store `dbLru2`. -/
theorem owner_lru_touch_witness :
    (owners (dbGet dbLru2 (.str "a") "k").2 = (owners dbLru2).erase (.str "a") ++ [.str "a"]) ∧
    (owners (dbGetAll dbLru2 (.str "b")).2 = (owners dbLru2).erase (.str "b") ++ [.str "b"]) ∧
    (owners (dbSet dbLru2 (.str "a") "k2" (.num 9)) =
      (owners dbLru2).erase (.str "a") ++ [.str "a"]) ∧
    ((dbSet dbLru2 (.str "c") "k" (.num 9)).store.length ≤ 2) ∧
    (lruEvict 2 [(JsKey.str "x", ([] : UserMap))] =
      [(JsKey.str "x", ([] : UserMap))].drop ([(JsKey.str "x", ([] : UserMap))].length - 2)) := by
  refine ⟨?_, ?_, ?_, ?_, ?_⟩
  · exact owner_lru_touch.2.1 dbLru2 (.str "a") "k" [("k", .num 1)] (by decide) rfl
  · exact owner_lru_touch.2.2.1 dbLru2 (.str "b") [("k", .num 2)] (by decide) rfl
  · exact owner_lru_touch.2.2.2.1 dbLru2 "a" "k2" (.num 9) [("k", .num 1)] (by decide) (by decide) rfl
  · exact owner_lru_touch.2.2.2.2.1 dbLru2 (.str "c") "k" (.num 9) (by decide) (by decide)
  · exact owner_lru_touch.2.2.2.2.2 2 [(JsKey.str "x", [])]


/-! ## The Semaphore (C5) — `sessionManager.js` lines 9–27

```
async acquire() {
  if (this.active < this.limit) { this.active++; return; }
  await new Promise(resolve => this.queue.push(resolve));
  this.active++;
}
release() {
  this.active = Math.max(0, this.active - 1);
  if (this.queue.length) this.queue.shift()();
}
```

Atomic events of the embedding: `acquire c` is the synchronous body of
`acquire()` (fast-path increment, or pushing caller `c`'s resolver);
`release` is the synchronous body of `release()` (decrement, and moving the
head waiter's continuation to the microtask queue by calling its resolver);
`resume c` is caller `c`'s continuation after its awaited promise resolved
(`this.active++`), which JS runs from the microtask queue in FIFO order —
hence `pending` is a queue and `resume` must take its head.  `release` is
modelled only for callers that actually hold the semaphore (`active ≠ 0`),
so the `Math.max(0, ·)` clamp never binds; `enqHist`/`wokenHist` are ghost
fields recording arrival order and wake order. -/

structure SemState where
  active : Nat
  queue : List Nat
  pending : List Nat
  enqHist : List Nat
  wokenHist : List Nat
deriving DecidableEq, Repr

inductive SemEv where
  | acquire (c : Nat)
  | release
  | resume (c : Nat)
deriving DecidableEq, Repr

def semInit : SemState := ⟨0, [], [], [], []⟩

def semStep (limit : Nat) (s : SemState) : SemEv → Option SemState
  | .acquire c =>
    if s.active < limit then some { s with active := s.active + 1 }
    else some { s with queue := s.queue ++ [c], enqHist := s.enqHist ++ [c] }
  | .release =>
    if s.active = 0 then none
    else
      match s.queue with
      | [] => some { s with active := s.active - 1 }
      | h :: t =>
        some { s with active := s.active - 1, queue := t,
                      pending := s.pending ++ [h], wokenHist := s.wokenHist ++ [h] }
  | .resume c =>
    match s.pending with
    | [] => none
    | h :: t =>
      if h = c then some { s with pending := t, active := s.active + 1 } else none

def semRun (limit : Nat) : SemState → List SemEv → Option SemState
  | s, [] => some s
  | s, e :: evs =>
    match semStep limit s e with
    | none => none
    | some s' => semRun limit s' evs

def semStepPrompt (limit : Nat) (s : SemState) (e : SemEv) : Option SemState :=
  match e with
  | .resume _ => semStep limit s e
  | _ => if s.pending = [] then semStep limit s e else none

def semRunPrompt (limit : Nat) : SemState → List SemEv → Option SemState
  | s, [] => some s
  | s, e :: evs =>
    match semStepPrompt limit s e with
    | none => none
    | some s' => semRunPrompt limit s' evs

def semBound (limit : Nat) (s : SemState) : List SemEv → Bool
  | [] => true
  | e :: evs =>
    match semStep limit s e with
    | none => true
    | some s' => decide (s'.active ≤ limit) && semBound limit s' evs

def semTraceCex : List SemEv := [.acquire 0, .acquire 1, .release, .acquire 2, .resume 1]

/-- C5, counterexample: with `limit = 1`, the arrival pattern
acquire(0); acquire(1); release; acquire(2); resume-of-1 is a valid
execution (caller 0 releases what it holds; caller 1's continuation runs
from the microtask queue), yet it ends with `active = 2 > limit`:
`release` decrements `active` and resolves waiter 1's promise, but waiter
1 only increments `active` when its continuation later runs, so caller 2's
fast-path acquire slips in through the freed count first.  `semBound`
checks the claim's "at most `limit` active at any time" along the trace
and returns `false`. -/
theorem semaphore_cex :
    (semRun 1 semInit semTraceCex).isSome = true ∧
    ((semRun 1 semInit semTraceCex).getD semInit).active = 2 ∧
    semBound 1 semInit semTraceCex = false := by
  refine ⟨rfl, rfl, rfl⟩

theorem semStep_inv1 {limit : Nat} {s s1 : SemState} {e : SemEv}
    (hinv : s.enqHist = s.wokenHist ++ s.queue)
    (hstep : semStep limit s e = some s1) :
    s1.enqHist = s1.wokenHist ++ s1.queue := by
  cases e with
  | acquire c =>
    rw [semStep] at hstep
    split at hstep
    · injection hstep with h
      subst h
      exact hinv
    · injection hstep with h
      subst h
      simp only [hinv, List.append_assoc]
  | release =>
    rw [semStep] at hstep
    split at hstep
    · exact Option.noConfusion hstep
    · split at hstep
      · injection hstep with h
        subst h
        exact hinv
      · next h t hq =>
        injection hstep with heq
        subst heq
        simp only
        rw [hinv, hq, List.append_assoc]
        rfl
  | resume c =>
    rw [semStep] at hstep
    split at hstep
    · exact Option.noConfusion hstep
    · split at hstep
      · injection hstep with heq
        subst heq
        exact hinv
      · exact Option.noConfusion hstep

theorem semRun_inv1 (limit : Nat) (evs : List SemEv) :
    ∀ s s', s.enqHist = s.wokenHist ++ s.queue → semRun limit s evs = some s' →
      s'.enqHist = s'.wokenHist ++ s'.queue := by
  induction evs with
  | nil =>
    intro s s' hinv hrun
    simp only [semRun] at hrun
    injection hrun with h
    subst h
    exact hinv
  | cons e evs ih =>
    intro s s' hinv hrun
    rw [semRun] at hrun
    cases hstep : semStep limit s e with
    | none => rw [hstep] at hrun; exact Option.noConfusion hrun
    | some s1 =>
      rw [hstep] at hrun
      exact ih s1 s' (semStep_inv1 hinv hstep) hrun

def semPromptInv (limit : Nat) (s : SemState) : Prop :=
  s.active ≤ limit ∧ (s.pending = [] ∨ (s.pending.length = 1 ∧ s.active < limit))

theorem semStepPrompt_inv {limit : Nat} {s s1 : SemState} {e : SemEv}
    (hinv : semPromptInv limit s)
    (hstep : semStepPrompt limit s e = some s1) :
    semPromptInv limit s1 := by
  cases e with
  | acquire c =>
    simp only [semStepPrompt] at hstep
    split at hstep
    · next hpe =>
      rw [semStep] at hstep
      split at hstep
      · next hlt =>
        injection hstep with h
        subst h
        exact ⟨hlt, Or.inl hpe⟩
      · injection hstep with h
        subst h
        exact ⟨hinv.1, Or.inl hpe⟩
    · exact Option.noConfusion hstep
  | release =>
    simp only [semStepPrompt] at hstep
    split at hstep
    · next hpe =>
      rw [semStep] at hstep
      split at hstep
      · exact Option.noConfusion hstep
      · next hz =>
        split at hstep
        · injection hstep with h
          subst h
          refine ⟨?_, Or.inl hpe⟩
          have := hinv.1
          simp only
          omega
        · next h t hq =>
          injection hstep with heq
          subst heq
          refine ⟨?_, Or.inr ⟨?_, ?_⟩⟩
          · have := hinv.1
            simp only
            omega
          · simp [hpe]
          · have := hinv.1
            simp only
            omega
    · exact Option.noConfusion hstep
  | resume c =>
    simp only [semStepPrompt, semStep] at hstep
    split at hstep
    · exact Option.noConfusion hstep
    · next h t hp =>
      split at hstep
      · injection hstep with heq
        subst heq
        rcases hinv.2 with hcase | hcase
        · rw [hp] at hcase
          exact List.noConfusion hcase
        · rw [hp] at hcase
          have hlt := hcase.2
          have ht : t.length = 0 := by
            have := hcase.1
            simp only [List.length_cons] at this
            omega
          refine ⟨by simp only; omega, Or.inl ?_⟩
          simp only
          exact List.length_eq_zero.mp ht
      · exact Option.noConfusion hstep

theorem semRunPrompt_inv (limit : Nat) (evs : List SemEv) :
    ∀ s s', semPromptInv limit s → semRunPrompt limit s evs = some s' →
      semPromptInv limit s' := by
  induction evs with
  | nil =>
    intro s s' hinv hrun
    simp only [semRunPrompt] at hrun
    injection hrun with h
    subst h
    exact hinv
  | cons e evs ih =>
    intro s s' hinv hrun
    rw [semRunPrompt] at hrun
    cases hstep : semStepPrompt limit s e with
    | none => rw [hstep] at hrun; exact Option.noConfusion hrun
    | some s1 =>
      rw [hstep] at hrun
      exact ih s1 s' (semStepPrompt_inv hinv hstep) hrun

/-- C5, amended: (1) waiters are woken in FIFO order — in every valid
execution the enqueue history equals the wake history followed by the
current queue, so `release` always wakes exactly the longest-waiting
suspended caller (`this.queue.shift()`); (2) the at-most-`limit` bound on
concurrently active acquirers holds under prompt resumption, i.e. on
schedules where each woken waiter's continuation runs before the next
acquire or release begins (`semRunPrompt`); without that scheduling
assumption the bound can be exceeded (see the counterexample). -/
theorem semaphore_fifo_and_prompt_bound :
    (∀ (limit : Nat) (evs : List SemEv) (s : SemState),
       semRun limit semInit evs = some s → s.enqHist = s.wokenHist ++ s.queue) ∧
    (∀ (limit : Nat) (evs : List SemEv) (s : SemState),
       semRunPrompt limit semInit evs = some s → s.active ≤ limit) := by
  constructor
  · intro limit evs s hrun
    exact semRun_inv1 limit evs semInit s rfl hrun
  · intro limit evs s hrun
    exact (semRunPrompt_inv limit evs semInit s ⟨Nat.zero_le _, Or.inl rfl⟩ hrun).1

def semTraceW : List SemEv := [.acquire 0, .acquire 1, .release, .resume 1]

def semFinW : SemState := (semRunPrompt 1 semInit semTraceW).getD semInit

/-- Witness for C5 at a concrete input: `limit = 1` and the trace
acquire(0); acquire(1); release; resume-of-1, which is valid under both
the general and the prompt semantics. -/
theorem semaphore_fifo_and_prompt_bound_witness :
    semFinW.active ≤ 1 ∧ semFinW.enqHist = semFinW.wokenHist ++ semFinW.queue := by
  have hrunP : semRunPrompt 1 semInit semTraceW = some semFinW := rfl
  have hrunG : semRun 1 semInit semTraceW = some semFinW := rfl
  exact ⟨semaphore_fifo_and_prompt_bound.2 1 semTraceW semFinW hrunP,
         semaphore_fifo_and_prompt_bound.1 1 semTraceW semFinW hrunG⟩

/-! ## Reconnect backoff (C4) — `sessionManager.js` lines 189–253

Event machine over one session entry.  `close` is a transient
`connection === 'close'` update (lines 233–251): if `restarting` is not yet
set it sets the guard, clears the socket, moves to `reconnecting` and
schedules a reconnect after `entry.backoffMs || defaultBackoff` — the
scheduled delay is the second component of `bStep`.  `timerFire suc` is the
timer callback of lines 240–250: it clears the guard, doubles the backoff
(capped at `maxBackoff`), then awaits `start`; on success (`suc = true`)
`start` sets the socket, status `connected` and — line 96 — resets
`backoffMs` to `defaultBackoff`; on failure the catch clears the guard and
the doubled backoff remains.  `openEv` is a `connection === 'open'` update
(lines 198–205).  `bDelays` collects the scheduled delays along a trace. -/

structure BackoffCfg where
  base : Nat
  cap : Nat

inductive Status where
  | stopped | starting | connected | reconnecting | stopping
deriving DecidableEq, Repr

structure BEntry where
  backoffMs : Nat
  restarting : Bool
  sock : Bool
  status : Status
deriving DecidableEq, Repr

inductive BEv where
  | close
  | timerFire (startSucceeds : Bool)
  | openEv
deriving DecidableEq, Repr

def bInit (cfg : BackoffCfg) : BEntry :=
  { backoffMs := cfg.base, restarting := false, sock := true, status := .connected }

def bStep (cfg : BackoffCfg) (e : BEntry) : BEv → BEntry × Option Nat
  | .close =>
    if e.restarting then (e, none)
    else
      ({ e with restarting := true, sock := false, status := .reconnecting },
       some (if e.backoffMs = 0 then cfg.base else e.backoffMs))
  | .timerFire suc =>
    let b2 := min ((if e.backoffMs = 0 then cfg.base else e.backoffMs) * 2) cfg.cap
    if suc then
      ({ e with restarting := false, backoffMs := cfg.base, sock := true, status := .connected },
       none)
    else
      ({ e with restarting := false, backoffMs := b2, sock := false, status := .starting }, none)
  | .openEv =>
    ({ e with status := .connected, backoffMs := cfg.base, restarting := false }, none)

def bDelays (cfg : BackoffCfg) (e : BEntry) : List BEv → List Nat
  | [] => []
  | ev :: evs => (bStep cfg e ev).2.toList ++ bDelays cfg (bStep cfg e ev).1 evs

def failCycles : Nat → List BEv
  | 0 => []
  | n + 1 => BEv.close :: BEv.timerFire false :: failCycles n

/-- C4, counterexample: with `base = 1000` and `cap = 60000`, after one
(`n = 1`) transient close with no intervening success, the scheduled delay
is `1000` (the entry's *current* `backoffMs`, line 238), while the claim's
formula gives `min(base * 2^1, cap) = 2000`.  The doubling happens only
later, inside the fired timer (line 243), so the n-th close schedules
`base * 2^(n-1)`, one doubling behind the claim. -/
theorem backoff_cex :
    bDelays ⟨1000, 60000⟩ (bInit ⟨1000, 60000⟩) [.close] = [1000] ∧
    min (1000 * 2 ^ 1) 60000 = 2000 ∧ (1000 : Nat) ≠ 2000 := by
  refine ⟨rfl, rfl, by decide⟩

theorem min_mul_min (x cap m : Nat) (hm : 0 < m) : min (min x cap * m) cap = min (x * m) cap := by
  rcases Nat.le_total x cap with h | h
  · rw [Nat.min_eq_left h]
  · rw [Nat.min_eq_right h]
    have h1 : cap ≤ cap * m := Nat.le_mul_of_pos_right _ hm
    have h2 : cap ≤ x * m := le_trans h (Nat.le_mul_of_pos_right _ hm)
    rw [Nat.min_eq_right h1, Nat.min_eq_right h2]

theorem backoff_fail_cycles (cfg : BackoffCfg) :
    ∀ (n : Nat) (b : Nat) (sock : Bool) (st : Status), 0 < b → b ≤ cfg.cap →
      bDelays cfg ⟨b, false, sock, st⟩ (failCycles n ++ [.close]) =
      (List.range (n + 1)).map (fun k => min (b * 2 ^ k) cfg.cap) := by
  intro n
  induction n with
  | zero =>
    intro b sock st hb hbc
    have hbne : b ≠ 0 := Nat.pos_iff_ne_zero.mp hb
    have hr1 : List.range (0 + 1) = [0] := rfl
    simp only [failCycles, List.nil_append, hr1, List.map_cons, List.map_nil, pow_zero,
      Nat.mul_one, Nat.min_eq_left hbc]
    rw [bDelays]
    simp [bDelays, bStep, hbne]
  | succ n ih =>
    intro b sock st hb hbc
    have hbne : b ≠ 0 := Nat.pos_iff_ne_zero.mp hb
    have hcap : 0 < cfg.cap := lt_of_lt_of_le hb hbc
    have hb2 : 0 < min (b * 2) cfg.cap := by
      rw [Nat.lt_min]
      exact ⟨by omega, hcap⟩
    have hb2c : min (b * 2) cfg.cap ≤ cfg.cap := Nat.min_le_right _ _
    have h1 : bStep cfg ⟨b, false, sock, st⟩ BEv.close =
        (⟨b, true, false, .reconnecting⟩, some b) := by
      simp [bStep, hbne]
    have h2 : bStep cfg ⟨b, true, false, .reconnecting⟩ (BEv.timerFire false) =
        (⟨min (b * 2) cfg.cap, false, false, .starting⟩, none) := by
      simp [bStep, hbne]
    rw [failCycles, List.cons_append, List.cons_append]
    rw [bDelays, h1]
    rw [bDelays, h2]
    rw [ih (min (b * 2) cfg.cap) false .starting hb2 hb2c]
    have hRHS : (List.range (n + 1 + 1)).map (fun k => min (b * 2 ^ k) cfg.cap) =
        b :: (List.range (n + 1)).map (fun k => min (b * 2 ^ (k + 1)) cfg.cap) := by
      rw [List.range_succ_eq_map, List.map_cons, List.map_map]
      rw [pow_zero, Nat.mul_one, Nat.min_eq_left hbc]
      rfl
    rw [hRHS]
    simp only [Option.toList_some, Option.toList_none, List.nil_append, List.singleton_append]
    congr 1
    apply List.map_congr_left
    intro k hk
    rw [min_mul_min _ _ _ (by positivity)]
    congr 1
    ring

/-- C4, amended: (1) in a run of consecutive transient closes where every
intervening reconnect attempt fails to produce a socket, the delay
scheduled at the n-th close (1-indexed) equals `min(base * 2^(n-1), cap)` —
the trace `failCycles n ++ [close]` has `n + 1` closes whose scheduled
delays are exactly `min(base * 2^k, cap)` for `k = 0 … n`; (2) an `open`
event resets the entry's backoff to `base` (line 200); (3) moreover a
reconnect whose `start` *succeeds* in creating a socket also resets the
backoff to `base` (line 96 of `start`), so when every reconnect succeeds
in creating a socket that later closes, every scheduled delay is `base`
and the exponential backoff never materialises. -/
theorem backoff_schedule (cfg : BackoffCfg) (hb : 0 < cfg.base) (hbc : cfg.base ≤ cfg.cap) :
    (∀ n : Nat, bDelays cfg (bInit cfg) (failCycles n ++ [.close]) =
      (List.range (n + 1)).map (fun k => min (cfg.base * 2 ^ k) cfg.cap)) ∧
    (∀ e : BEntry, (bStep cfg e .openEv).1.backoffMs = cfg.base) ∧
    (∀ e : BEntry, (bStep cfg e (.timerFire true)).1.backoffMs = cfg.base) := by
  refine ⟨fun n => backoff_fail_cycles cfg n cfg.base true .connected hb hbc, ?_, ?_⟩
  · intro e
    rfl
  · intro e
    rfl

/-- Witness for C4 at a concrete input: `base = 1000`, `cap = 60000`,
three consecutive closes with failing reconnects schedule delays
`[1000, 2000, 4000]`; an `open` from backoff `8000` resets to `1000`. -/
theorem backoff_schedule_witness :
    bDelays ⟨1000, 60000⟩ (bInit ⟨1000, 60000⟩) (failCycles 2 ++ [.close]) =
      [1000, 2000, 4000] ∧
    (bStep ⟨1000, 60000⟩ ⟨8000, false, true, .connected⟩ .openEv).1.backoffMs = 1000 := by
  constructor
  · rw [(backoff_schedule ⟨1000, 60000⟩ (by decide) (by decide)).1 2]
    rfl
  · exact (backoff_schedule ⟨1000, 60000⟩ (by decide) (by decide)).2.1 ⟨8000, false, true, .connected⟩

/-! ## Concurrent `start` (C2) — `sessionManager.js` lines 82–123

One session entry shared by several concurrent `start(sessionId)` calls.
Each call is a task whose atomic steps are the maximal synchronous segments
between `await` points of `start`:

* `entry` — lines 83–88: `register`, the `if (entry.sock) return entry.sock`
  fast path, and the synchronous fast path of `semaphore.acquire()`
  (suspension at its `await`);
* `runBody` — lines 91–92: sets status `'starting'` and invokes the factory
  `createSocketFn(sessionId)` (suspension at its `await`);
* `factoryResolved` — lines 93–117: the factory's promise resolves, a fresh
  connection (numbered by a creation counter) is stored in `entry.sock`,
  status becomes `'connected'` (suspension at the settle-delay `await`,
  line 120);
* `settleDone` — line 121: releases the semaphore slot and returns the
  task's *local* `sock` variable.

A task blocked in `acquire` (active ≥ limit) stays at `entry`; the queued
wakeup discipline is modelled separately with the Semaphore machine and is
irrelevant here since the schedules used keep `semActive < limit`.
`startRun` executes a schedule: a list of task indices, each performing one
step of the indexed task. -/

structure CState where
  sock : Option Nat
  status : Status
  semActive : Nat
  created : Nat
deriving DecidableEq, Repr

inductive StartPc where
  | entry
  | runBody
  | factoryResolved
  | settleDone (sid : Nat)
  | done (ret : Option Nat)
deriving DecidableEq, Repr

def startStep (limit : Nat) (s : CState) : StartPc → CState × StartPc
  | .entry =>
    match s.sock with
    | some sid => (s, .done (some sid))
    | none =>
      if s.semActive < limit then ({ s with semActive := s.semActive + 1 }, .runBody)
      else (s, .entry)
  | .runBody => ({ s with status := .starting }, .factoryResolved)
  | .factoryResolved =>
    ({ s with created := s.created + 1, sock := some (s.created + 1), status := .connected },
     .settleDone (s.created + 1))
  | .settleDone sid => ({ s with semActive := s.semActive - 1 }, .done (some sid))
  | .done r => (s, .done r)

def startRun (limit : Nat) : CState → List StartPc → List Nat → CState × List StartPc
  | s, pcs, [] => (s, pcs)
  | s, pcs, i :: sched =>
    match pcs[i]? with
    | none => startRun limit s pcs sched
    | some pc =>
      startRun limit (startStep limit s pc).1 (pcs.set i (startStep limit s pc).2) sched

def startInit : CState := ⟨none, .stopped, 0, 0⟩

/-- C2, counterexample: two `start` calls for the same id, both beginning
while the session is not running, interleaved at their `await` points
(schedule task 0 / task 1 alternating), each pass the `if (entry.sock)`
check, each acquire a slot, and each create a connection: the run ends with
`created = 2` (two live connections were made for one id; `start` never
closes the first) and the two calls return *different* connections
(`done (some 1)` vs `done (some 2)`), refuting "at no point does a single
id have more than one live connection". -/
theorem start_race_cex :
    startRun 20 startInit [.entry, .entry] [0, 1, 0, 1, 0, 1, 0, 1] =
      (⟨some 2, .connected, 0, 2⟩, [.done (some 1), .done (some 2)]) ∧
    (1 : Nat) ≠ 2 := by
  exact ⟨rfl, by decide⟩

/-- C2, amended: `start` is idempotent only against calls that begin while
the session is already running: (1) a `start` whose first synchronous
segment sees `entry.sock` set returns that same connection immediately and
changes nothing (no slot taken, no connection created); (2) a single
uninterleaved `start` from a non-running entry creates exactly one
connection.  Two `start`s interleaving from a non-running state can still
create two live connections for the id (see the counterexample). -/
theorem start_idempotent_when_running :
    (∀ (limit : Nat) (s : CState) (sid : Nat), s.sock = some sid →
       startStep limit s .entry = (s, .done (some sid))) ∧
    (∀ (limit : Nat) (s : CState), s.sock = none → s.semActive < limit →
       startRun limit s [.entry] [0, 0, 0, 0] =
         ({ s with created := s.created + 1, sock := some (s.created + 1),
                   status := .connected },
          [.done (some (s.created + 1))])) := by
  constructor
  · intro limit s sid hsock
    simp only [startStep, hsock]
  · intro limit s hsock hlt
    simp only [startRun, startStep, hsock, if_pos hlt]
    simp

/-- Witness for C2 at concrete inputs: a running entry holding connection
`5`, and a single sequential `start` from the initial stopped state. -/
theorem start_idempotent_when_running_witness :
    startStep 20 ⟨some 5, .connected, 0, 1⟩ .entry =
      (⟨some 5, .connected, 0, 1⟩, .done (some 5)) ∧
    startRun 20 ⟨none, .stopped, 0, 0⟩ [.entry] [0, 0, 0, 0] =
      (⟨some 1, .connected, 0, 1⟩, [.done (some 1)]) := by
  constructor
  · exact start_idempotent_when_running.1 20 ⟨some 5, .connected, 0, 1⟩ 5 rfl
  · exact start_idempotent_when_running.2 20 ⟨none, .stopped, 0, 0⟩ rfl (by decide)

/-! ## `startAll` (C3) — `sessionManager.js` lines 126–138

```
const tasks = keys.map(async (sid) => {
  try { await this.start(sid); } catch (e) { console.warn(...); }
});
const concurrency = this.concurrency;
for (let i = 0; i < tasks.length; i += concurrency) {
  const chunk = tasks.slice(i, i + concurrency);
  await Promise.all(chunk.map(fn => fn()));
}
```

`Array.prototype.map` applied to an `async` arrow *calls* it for each key:
each call synchronously begins `this.start(sid)` up to its first `await`
and returns a promise.  `startAllTasks` records both effects: the list of
started ids and the array of promise values.  `chunk.map(fn => fn())` then
calls each stored value as a function; a promise is not callable, so JS
throws a `TypeError` synchronously at the first element (`callAsFunction`
/ `mapCalls`), which rejects `startAll` before any `Promise.all` is
awaited.  `runChunksAux` is the chunked loop (`concurrency` is at least 1
in the manager — `opts.concurrency || 20` — the `max conc 1` keeps the
model total for the out-of-contract value 0); its fuel argument
`keys.length` bounds the iteration count, which the loop never exceeds
since each iteration consumes at least one task. -/

inductive JSv where
  | promiseOf (sid : String)
deriving DecidableEq, Repr

def startAllTasks (keys : List String) : List String × List JSv :=
  (keys, keys.map (fun sid => JSv.promiseOf sid))

def callAsFunction : JSv → Except String JSv
  | .promiseOf _ => .error "TypeError: fn is not a function"

def mapCalls : List JSv → Except String (List JSv)
  | [] => .ok []
  | v :: rest =>
    match callAsFunction v with
    | .error e => .error e
    | .ok r =>
      match mapCalls rest with
      | .error e => .error e
      | .ok rs => .ok (r :: rs)

def runChunksAux (conc : Nat) : Nat → List JSv → Except String Unit
  | _, [] => .ok ()
  | 0, _ :: _ => .ok ()
  | fuel + 1, t :: ts =>
    match mapCalls ((t :: ts).take conc) with
    | .error e => .error e
    | .ok _ => runChunksAux conc fuel ((t :: ts).drop (max conc 1))

def startAllJs (keys : List String) (conc : Nat) : List String × Except String Unit :=
  ((startAllTasks keys).1, runChunksAux conc keys.length (startAllTasks keys).2)

/-- C3: evaluation of `startAll` at its failing inputs.  `keys.map(async
(sid) => …)` invokes the async arrows at map time, so *every* registered
session's start is launched immediately (first component = all keys,
independent of `concurrency`), and `tasks` holds promises; the batching
loop then evaluates `chunk.map(fn => fn())`, which throws
`TypeError: fn is not a function` on the first element of the first chunk
whenever at least one id is registered.  No batch boundary is ever awaited.
With no registered ids the loop body never runs and `startAll` resolves. -/
theorem startAll_launches_all_then_throws :
    startAllJs ["a", "b", "c"] 2 =
      (["a", "b", "c"], .error "TypeError: fn is not a function") ∧
    startAllJs [] 2 = ([], .ok ()) ∧
    (∀ (keys : List String) (conc : Nat), (startAllJs keys conc).1 = keys) := by
  exact ⟨rfl, rfl, fun keys conc => rfl⟩

/-! ## Registry-level `SessionManager` (C6, C9) — `sessionManager.js`

Sequential (single caller, no interleaving) model of the manager around its
registry `this.sessions : Map<sessionId, entry>`:

* `registerOp` — lines 69–74: adds a fresh `stopped` entry if absent
  (metadata persistence is best-effort fire-and-forget and does not affect
  the registry, so it is not modelled);
* `startOp` — lines 82–123, with the factory outcome passed explicitly:
  register, the `entry.sock` fast path, slot acquire (fast path), status
  `'starting'`, then either the factory throws (`finally` releases the
  slot, the error propagates, the entry is left as is) or it resolves (the
  connection gets the next creation number; status `'connected'`, backoff
  reset — line 96);
* `logoutOp` — lines 154–174: removes the entry (socket close and auth-dir
  deletion are external effects outside the registry);
* `closeTransientOp` — lines 233–251: the transient branch of
  `_handleConnectionUpdate`, guarded by `restarting`, scheduling a
  reconnect after the entry's current backoff;
* `timerFireAfterLogout` — the pending timer callback of lines 240–250
  firing after a logout removed the entry: the captured `entry` object is
  orphaned (its mutations on lines 242–243 touch an object no longer in
  the map), and the callback calls `this.start(sessionId)`;
* `isRunningOp`, `listOp` — lines 176–187. -/

structure MEntry where
  sock : Option Nat
  backoffMs : Nat
  restarting : Bool
  status : Status
deriving DecidableEq, Repr

structure MState where
  sessions : List (String × MEntry)
  created : Nat
  semActive : Nat
deriving DecidableEq, Repr

def freshEntry (base : Nat) : MEntry := ⟨none, base, false, .stopped⟩

def registerOp (base : Nat) (m : MState) (id : String) : MState :=
  if (lookupA m.sessions id).isSome then m
  else { m with sessions := m.sessions ++ [(id, freshEntry base)] }

def startOp (base : Nat) (m : MState) (id : String) (factory : Except String Unit) :
    MState × Except String Nat :=
  match lookupA (registerOp base m id).sessions id with
  | none => (registerOp base m id, .error "failed to register")
  | some e =>
    match e.sock with
    | some sid => (registerOp base m id, .ok sid)
    | none =>
      let e1 : MEntry := { e with status := Status.starting }
      let m2 : MState := { registerOp base m id with semActive := (registerOp base m id).semActive + 1, sessions := setA (registerOp base m id).sessions id e1 }
      match factory with
      | .error msg => ({ m2 with semActive := m2.semActive - 1 }, .error msg)
      | .ok _ =>
        let sid := m2.created + 1
        let e2 : MEntry := { e with sock := some sid, status := Status.connected, restarting := false, backoffMs := base }
        let m3 : MState := { m2 with created := sid, sessions := setA m2.sessions id e2 }
        ({ m3 with semActive := m3.semActive - 1 }, .ok sid)

def logoutOp (m : MState) (id : String) : MState × Bool :=
  match lookupA m.sessions id with
  | none => (m, false)
  | some _ => ({ m with sessions := delA m.sessions id }, true)

def closeTransientOp (base : Nat) (m : MState) (id : String) : MState × Option Nat :=
  match lookupA m.sessions id with
  | none => (m, none)
  | some e =>
    if e.restarting then (m, none)
    else
      let e1 : MEntry := { e with restarting := true, sock := none, status := Status.reconnecting }
      ({ m with sessions := setA m.sessions id e1 },
       some (if e.backoffMs = 0 then base else e.backoffMs))

def timerFireAfterLogout (base : Nat) (m : MState) (id : String) : MState × Except String Nat :=
  startOp base m id (.ok ())

def isRunningOp (m : MState) (id : String) : Bool :=
  match lookupA m.sessions id with
  | none => false
  | some e => e.sock.isSome

def listOp (m : MState) : List (String × Status × Nat) :=
  m.sessions.map (fun p => (p.1, p.2.status, p.2.backoffMs))

def c6Start : MState := (startOp 1000 ⟨[], 0, 0⟩ "a" (.ok ())).1

def c6Closed : MState := (closeTransientOp 1000 c6Start "a").1

def c6LoggedOut : MState := (logoutOp c6Closed "a").1

def c6TimerFired : MState := (timerFireAfterLogout 1000 c6LoggedOut "a").1

/-- C6: evaluation at the failing input.  Session `"a"` is started
(connection 1), suffers a transient close which schedules a reconnect
timer, and is then logged out — `logout` removes the entry
(`c6LoggedOut` has no `"a"` and `created = 1`).  When the pending timer
fires, its callback calls `start("a")`: `start` begins with
`this.register(sessionId)`, which unconditionally re-creates the removed
entry, and then builds a fresh connection (number 2).  So the `start` is
*not* a no-op: the logged-out id is re-registered and running again,
contradicting the claim (and the spec's "must remain a no-op if the entry
no longer exists"). -/
theorem logout_then_timer_resurrects :
    ((logoutOp c6Closed "a").2 = true) ∧
    (lookupA c6LoggedOut.sessions "a" = none) ∧ (c6LoggedOut.created = 1) ∧
    ((lookupA c6TimerFired.sessions "a").isSome = true) ∧ (c6TimerFired.created = 2) ∧
    (isRunningOp c6TimerFired "a" = true) := by
  exact ⟨rfl, rfl, rfl, rfl, rfl, rfl⟩

/-- C9: if the connection-factory call inside `start(id)` throws, the
error is propagated to the `start` caller, the semaphore slot is released
(net active count unchanged), no connection is created, and the registered
entry is left with status `'starting'` and no connection reference — it is
not rolled back to `'stopped'` — so `list()` reports `'starting'` for the
id while `isRunning(id)` returns `false`. -/
theorem start_factory_failure (base : Nat) (m : MState) (id : String) (msg : String)
    (e : MEntry) (hreg : lookupA m.sessions id = some e) (hsock : e.sock = none) :
    ((startOp base m id (.error msg)).2 = .error msg) ∧
    ((startOp base m id (.error msg)).1.semActive = m.semActive) ∧
    ((startOp base m id (.error msg)).1.created = m.created) ∧
    (lookupA (startOp base m id (.error msg)).1.sessions id =
      some { e with status := Status.starting }) ∧
    (isRunningOp (startOp base m id (.error msg)).1 id = false) ∧
    ((id, Status.starting, e.backoffMs) ∈ listOp (startOp base m id (.error msg)).1) := by
  have hr : registerOp base m id = m := by
    rw [registerOp, if_pos (by rw [hreg]; rfl)]
  have hred : startOp base m id (.error msg) =
      ({ m with semActive := m.semActive + 1 - 1,
                sessions := setA m.sessions id { e with status := Status.starting } },
       .error msg) := by
    rw [startOp]
    simp only [hr, hreg, hsock]
  rw [hred]
  refine ⟨rfl, by simp, rfl, lookupA_setA _ _ _, ?_, ?_⟩
  · rw [isRunningOp]
    simp only [lookupA_setA]
    rw [show ({ e with status := Status.starting } : MEntry).sock = e.sock from rfl, hsock]
    rfl
  · rw [listOp]
    refine List.mem_map.mpr ⟨(id, { e with status := Status.starting }), ?_, rfl⟩
    exact lookupA_mem (lookupA_setA _ _ _)

/-- Witness for C9 at a concrete input: a registered, stopped session
`"b"` whose factory throws `"boom"`. -/
theorem start_factory_failure_witness :
    ((startOp 1000 ⟨[("b", freshEntry 1000)], 0, 0⟩ "b" (.error "boom")).2 = .error "boom") ∧
    (isRunningOp (startOp 1000 ⟨[("b", freshEntry 1000)], 0, 0⟩ "b" (.error "boom")).1 "b" =
      false) ∧
    ((startOp 1000 ⟨[("b", freshEntry 1000)], 0, 0⟩ "b" (.error "boom")).1.semActive = 0) ∧
    (("b", Status.starting, 1000) ∈
      listOp (startOp 1000 ⟨[("b", freshEntry 1000)], 0, 0⟩ "b" (.error "boom")).1) := by
  have h := start_factory_failure 1000 ⟨[("b", freshEntry 1000)], 0, 0⟩ "b" "boom"
    (freshEntry 1000) rfl rfl
  exact ⟨h.1, h.2.2.2.2.1, h.2.1, h.2.2.2.2.2⟩

end MultSession
